import Mathlib

/-
Verification of the bazel-metrics repository scanner and metrics calculator.

The definitions below are a shallow embedding of

  * analyzer/cmd/main.go    (package scanner: NewScanner, Scanner.Scan,
                             Scanner.parseBuildFile), and
  * the metrics package     (Calculator.Calculate, calculateLanguageSummary,
                             calculateDirectoryBreakdown, getTopLevelDir).

Modelling conventions:

  * The filesystem subtree passed to the scanner is an explicit tree
    (`FSDir`).  `filepath.Walk` enumerates directory entries in lexical
    order, so concrete trees list their files and subdirectories in that
    order.  A file's `content` is `none` when the file cannot be opened or
    read (`parseBuildFile` failure); content is only ever read for build
    manifests, so other files' contents are irrelevant.
  * Go `int` counters are modelled as `Nat` (they are only ever
    incremented, starting from zero) and `float64` percentages as `ℚ`
    (each percentage is a single division and multiplication; the IEEE
    rounding of the final value is not modelled).
  * Go's `dirMap` (a map keyed by absolute directory path) holds exactly
    one entry per visited directory, because directory paths are unique on
    a real filesystem; the embedding therefore processes each walked
    directory independently.  Map iteration order (unspecified in Go) only
    influences list orders that are either re-sorted on unique keys
    afterwards (package lists, sorted by relative path) or quantified over
    explicitly in the theorems (the directory breakdown before its sort).
-/

set_option maxRecDepth 8000

namespace BM

/-- A regular file as seen by the walker: its base name, and its text for the
files the scanner reads (build manifests); `none` models a file that cannot
be opened or read. -/
structure FileEntry where
  name : String
  content : Option String
deriving DecidableEq

mutual

/-- A directory: base name, the regular files directly inside it, and its
subdirectories, in the lexical order `filepath.Walk` uses. -/
inductive FSDir : Type where
  | node : String → List FileEntry → FSForest → FSDir

/-- A list of sibling subdirectories. -/
inductive FSForest : Type where
  | nil : FSForest
  | cons : FSDir → FSForest → FSForest

end

def FSDir.name : FSDir → String
  | .node n _ _ => n

def FSDir.files : FSDir → List FileEntry
  | .node _ fs _ => fs

def FSDir.subdirs : FSDir → FSForest
  | .node _ _ ds => ds

/-- Go `strings.HasPrefix` (all names involved are ASCII, where Go's
byte-wise comparison and Lean's character-wise comparison agree). -/
def strStartsWith (s p : String) : Bool := p.data.isPrefixOf s.data

/-- Go `strings.HasSuffix`. -/
def strEndsWith (s p : String) : Bool := p.data.reverse.isPrefixOf s.data.reverse

/-- The scanner's fixed exclusion denylist (`NewScanner`'s `skipDirs`). -/
def skipDirs : List String :=
  [".git", "bazel-bin", "bazel-out", "bazel-testlogs", "node_modules",
   ".cache", "vendor", "__pycache__", "target", ".venv", "venv"]

/-- The walk's directory-exclusion rule (main.go lines 306-312): skip a
directory whose base name starts with ".", is in the denylist, or starts
with "bazel-". -/
def excludedDir (base : String) : Bool :=
  strStartsWith base "." || skipDirs.contains base || strStartsWith base "bazel-"

/-- Go regexp's `\s` character class, [\t\n\f\r ]. -/
def isSpaceGo (c : Char) : Bool :=
  c == ' ' || c == '\t' || c == '\n' || c == '\r' || c == Char.ofNat 12

/-- Drop leading `\s` characters. -/
def dropSpaces : List Char → List Char
  | [] => []
  | c :: cs => if isSpaceGo c then dropSpaces cs else c :: cs

/-- Match a literal prefix, returning the remainder on success. -/
def matchLit : List Char → List Char → Option (List Char)
  | [], cs => some cs
  | _, [] => none
  | p :: ps, c :: cs => if p == c then matchLit ps cs else none

/-- Does `name` followed by `\s*` and a literal `(` occur at the head of
`cs`? (the part of the pattern after the `^\s*` anchor). -/
def ruleAt (name : List Char) (cs : List Char) : Bool :=
  match matchLit name cs with
  | none => false
  | some rest =>
    match dropSpaces rest with
    | '(' :: _ => true
    | _ => false

/-- Count the matches of the Go regexp `(?m)^\s*NAME\s*\(` in a text, as
`FindAllString` does.  A match starts at a position that is preceded, back
to the start of its line, only by whitespace (`lineOk` tracks this while
scanning), begins with the literal rule name, and continues with optional
whitespace and an opening parenthesis.  Matches contain exactly one
occurrence of the rule name and cannot overlap, so counting such positions
equals `len(FindAllString(text, -1))`. -/
def countRuleAux (name : List Char) : Bool → List Char → Nat
  | _, [] => 0
  | lineOk, c :: cs =>
    (if lineOk && ruleAt name (c :: cs) then 1 else 0) +
      countRuleAux name ((lineOk && isSpaceGo c) || c == '\n') cs

/-- Number of `(?m)^\s*NAME\s*\(` matches of one rule name in a manifest
text. -/
def countRule (name : String) (text : String) : Nat :=
  countRuleAux name.data true text.data

/-- The nine per-manifest target counts (`buildTargets` in main.go). -/
structure buildTargets where
  goTests : Nat
  goLibs : Nat
  goBins : Nat
  pyTests : Nat
  pyLibs : Nat
  pyBins : Nat
  rustTests : Nat
  rustLibs : Nat
  rustBins : Nat
deriving DecidableEq

/-- `Scanner.parseBuildFile` on a manifest's text: count the rule-invocation
patterns registered in `NewScanner`.  (The `bufio` line loop reassembles the
file's text with "\n" separators; on the texts considered here this is the
identity, and trailing-newline differences cannot change any count since a
match requires an opening parenthesis.) -/
def parseBuildFile (text : String) : buildTargets :=
  { goTests := countRule "go_test" text
    goLibs := countRule "go_library" text
    goBins := countRule "go_binary" text
    pyTests := countRule "py_test" text
    pyLibs := countRule "py_library" text
    pyBins := countRule "py_binary" text
    rustTests := countRule "rust_test" text
    rustLibs := countRule "rust_library" text
    rustBins := countRule "rust_binary" text }

/-- The `Language` enumeration of the scanner. -/
inductive Language where
  | go
  | python
  | rust
deriving DecidableEq

/-- `scanner.Package`.  `RelSegs` is the list of path segments from which
`RelPath` is rendered (the absolute `Path` field, which is just the
repository root joined with `RelPath`, is not modelled). -/
structure Package where
  RelPath : String
  RelSegs : List String
  Language : Language
  HasBuildFile : Bool
  HasTestFiles : Bool
  SourceFileCount : Nat
  TestFileCount : Nat
  TestTargetCount : Nat
  LibraryTargets : Nat
  BinaryTargets : Nat
deriving DecidableEq

/-- `scanner.ScanResult` (the `RepoPath` string is not modelled). -/
structure ScanResult where
  GoPackages : List Package
  PythonPackages : List Package
  RustPackages : List Package
  TotalBUILDs : Nat
  TotalGoFiles : Nat
  TotalGoTests : Nat
  TotalGoTestRules : Nat
  TotalPythonFiles : Nat
  TotalPythonTests : Nat
  TotalPyTestRules : Nat
  TotalRustFiles : Nat
  TotalRustTests : Nat
  TotalRustTestRules : Nat
deriving DecidableEq

/-- `filepath.Rel(repoRoot, dir)` for the directory reached from the root by
descending through `segs`: "." for the root itself, otherwise the
"/"-joined segments. -/
def relPathString : List String → String
  | [] => "."
  | s :: rest => rest.foldl (fun acc seg => acc ++ "/" ++ seg) s

mutual

/-- The non-excluded directories below (and including) one directory, each
with its relative-path segments and files — the directories for which the
walk callback of `Scanner.Scan` runs on files. -/
def walkDirs (rel : List String) : FSDir → List (List String × List FileEntry)
  | .node _ files subs => (rel, files) :: walkForest rel subs

/-- Walk a list of sibling subdirectories, applying the exclusion rule
before descending (`filepath.SkipDir`). -/
def walkForest (rel : List String) : FSForest → List (List String × List FileEntry)
  | .nil => []
  | .cons d ds =>
    (if excludedDir d.name then [] else walkDirs (rel ++ [d.name]) d) ++ walkForest rel ds

end

/-- `dirPackages` of main.go: per-directory aggregation during the walk. -/
structure dirPackages where
  relPath : String
  relSegs : List String
  hasBuild : Bool
  targets : Option buildTargets
  goPkg : Option Package
  pythonPkg : Option Package
  rustPkg : Option Package
deriving DecidableEq

/-- Is a file name one of the two accepted manifest spellings? -/
def isManifestName (n : String) : Bool := n == "BUILD" || n == "BUILD.bazel"

/-- The embryonic package created on first sight of a language's file in a
directory. -/
def mkPkg (dp : dirPackages) (lang : Language) : Package :=
  { RelPath := dp.relPath
    RelSegs := dp.relSegs
    Language := lang
    HasBuildFile := false
    HasTestFiles := false
    SourceFileCount := 0
    TestFileCount := 0
    TestTargetCount := 0
    LibraryTargets := 0
    BinaryTargets := 0 }

/-- Walk-callback fragment for manifest files (main.go lines 332-342), the
`dirPackages` half: record manifest presence; on a successful read attach
the parsed targets (overwriting a previous manifest's), on a failed read
leave `targets` unchanged. -/
def buildStep (dp : dirPackages) (f : FileEntry) : dirPackages :=
  if isManifestName f.name then
    let dp := { dp with hasBuild := true }
    match f.content with
    | some text => { dp with targets := some (parseBuildFile text) }
    | none => dp
  else dp

/-- The `if pkg == nil` lazy creation: the directory's existing package for
a language, or a fresh embryonic one. -/
def getOr (o : Option Package) (dp : dirPackages) (lang : Language) : Package :=
  match o with
  | some p => p
  | none => mkPkg dp lang

/-- Record one more test file on a package. -/
def bumpTest (p : Package) : Package :=
  { p with HasTestFiles := true, TestFileCount := p.TestFileCount + 1 }

/-- Record one more source file on a package. -/
def bumpSrc (p : Package) : Package :=
  { p with SourceFileCount := p.SourceFileCount + 1 }

/-- Walk-callback fragment for `.go` files (main.go lines 344-361), the
`dirPackages` half: get-or-create the Go package, then classify the file
as test or source by the `_test.go` suffix. -/
def goStep (dp : dirPackages) (f : FileEntry) : dirPackages :=
  if strEndsWith f.name ".go" then
    { dp with goPkg := some (if strEndsWith f.name "_test.go" then
        bumpTest (getOr dp.goPkg dp Language.go)
      else
        bumpSrc (getOr dp.goPkg dp Language.go)) }
  else dp

/-- The Python test-file naming rule (main.go lines 372-375). -/
def isPyTestName (n : String) : Bool :=
  strEndsWith n "_test.py" || strStartsWith n "test_" || strEndsWith n "_tests.py"

/-- Walk-callback fragment for `.py` files (main.go lines 363-383), the
`dirPackages` half. -/
def pyStep (dp : dirPackages) (f : FileEntry) : dirPackages :=
  if strEndsWith f.name ".py" then
    { dp with pythonPkg := some (if isPyTestName f.name then
        bumpTest (getOr dp.pythonPkg dp Language.python)
      else
        bumpSrc (getOr dp.pythonPkg dp Language.python)) }
  else dp

/-- Walk-callback fragment for `.rs` files (main.go lines 385-398), the
`dirPackages` half: every `.rs` file is a source file at this stage. -/
def rsStep (dp : dirPackages) (f : FileEntry) : dirPackages :=
  if strEndsWith f.name ".rs" then
    { dp with rustPkg := some (bumpSrc (getOr dp.rustPkg dp Language.rust)) }
  else dp

/-- The walk callback's effect on the directory's `dirPackages` entry.  The
callback's four file checks are sequential and independent. -/
def fileDp (dp : dirPackages) (f : FileEntry) : dirPackages :=
  rsStep (pyStep (goStep (buildStep dp f) f) f) f

/-- The walk callback's effect on the global totals of the `ScanResult`
(the increments of `result.*` interleaved with the `dirPackages` updates in
the callback; they depend only on the file name, so the two halves are
factored apart). -/
def fileTotals (r : ScanResult) (f : FileEntry) : ScanResult :=
  let r := if isManifestName f.name then { r with TotalBUILDs := r.TotalBUILDs + 1 } else r
  let r :=
    if strEndsWith f.name ".go" then
      if strEndsWith f.name "_test.go" then { r with TotalGoTests := r.TotalGoTests + 1 }
      else { r with TotalGoFiles := r.TotalGoFiles + 1 }
    else r
  let r :=
    if strEndsWith f.name ".py" then
      if isPyTestName f.name then { r with TotalPythonTests := r.TotalPythonTests + 1 }
      else { r with TotalPythonFiles := r.TotalPythonFiles + 1 }
    else r
  if strEndsWith f.name ".rs" then { r with TotalRustFiles := r.TotalRustFiles + 1 } else r

/-- A directory's fresh `dirPackages` entry (lazily created in Go on the
first file visit; creating it for a file-less directory as well is
unobservable, since an entry with no files contributes nothing). -/
def dp0 (rel : List String) : dirPackages :=
  { relPath := relPathString rel
    relSegs := rel
    hasBuild := false
    targets := none
    goPkg := none
    pythonPkg := none
    rustPkg := none }

/-- The `dirPackages` entry a directory holds at the end of the walk. -/
def dirDp (e : List String × List FileEntry) : dirPackages := e.2.foldl fileDp (dp0 e.1)

/-- Global totals accumulated over one directory's files. -/
def dirTotals (r : ScanResult) (e : List String × List FileEntry) : ScanResult :=
  e.2.foldl fileTotals r

/-- The zero-initialised `ScanResult` of `Scanner.Scan`. -/
def emptyResult : ScanResult :=
  { GoPackages := [], PythonPackages := [], RustPackages := [],
    TotalBUILDs := 0, TotalGoFiles := 0, TotalGoTests := 0, TotalGoTestRules := 0,
    TotalPythonFiles := 0, TotalPythonTests := 0, TotalPyTestRules := 0,
    TotalRustFiles := 0, TotalRustTests := 0, TotalRustTestRules := 0 }

/-- The state after the walk: global file totals plus one `dirPackages` per
visited directory. -/
def walkPhase (dirs : List (List String × List FileEntry)) : ScanResult × List dirPackages :=
  (dirs.foldl dirTotals emptyResult, dirs.map dirDp)

/-- Finalisation of one directory's Go package (main.go lines 410-419). -/
def goFinal (dp : dirPackages) (p : Package) : Package :=
  let p := { p with HasBuildFile := dp.hasBuild }
  match dp.targets with
  | none => p
  | some t => { p with TestTargetCount := t.goTests, LibraryTargets := t.goLibs,
                       BinaryTargets := t.goBins }

def finalizeGo (r : ScanResult) (dp : dirPackages) : ScanResult :=
  match dp.goPkg with
  | none => r
  | some p =>
    let r := match dp.targets with
      | none => r
      | some t => { r with TotalGoTestRules := r.TotalGoTestRules + t.goTests }
    { r with GoPackages := r.GoPackages ++ [goFinal dp p] }

/-- Finalisation of one directory's Python package (main.go lines 421-430). -/
def pyFinal (dp : dirPackages) (p : Package) : Package :=
  let p := { p with HasBuildFile := dp.hasBuild }
  match dp.targets with
  | none => p
  | some t => { p with TestTargetCount := t.pyTests, LibraryTargets := t.pyLibs,
                       BinaryTargets := t.pyBins }

def finalizePython (r : ScanResult) (dp : dirPackages) : ScanResult :=
  match dp.pythonPkg with
  | none => r
  | some p =>
    let r := match dp.targets with
      | none => r
      | some t => { r with TotalPyTestRules := r.TotalPyTestRules + t.pyTests }
    { r with PythonPackages := r.PythonPackages ++ [pyFinal dp p] }

/-- Finalisation of one directory's Rust package (main.go lines 432-447),
with the special rule: a positive `rust_test` target count retroactively
marks the package as having test files and sets the test-file count to the
target count. -/
def rustFinal (dp : dirPackages) (p : Package) : Package :=
  let p := { p with HasBuildFile := dp.hasBuild }
  match dp.targets with
  | none => p
  | some t =>
    let p := { p with TestTargetCount := t.rustTests, LibraryTargets := t.rustLibs,
                      BinaryTargets := t.rustBins }
    if 0 < t.rustTests then { p with HasTestFiles := true, TestFileCount := t.rustTests }
    else p

def finalizeRust (r : ScanResult) (dp : dirPackages) : ScanResult :=
  match dp.rustPkg with
  | none => r
  | some p =>
    let r := match dp.targets with
      | none => r
      | some t =>
        let r := { r with TotalRustTestRules := r.TotalRustTestRules + t.rustTests }
        if 0 < t.rustTests then { r with TotalRustTests := r.TotalRustTests + t.rustTests }
        else r
    { r with RustPackages := r.RustPackages ++ [rustFinal dp p] }

/-- Finalisation of one directory (one iteration of the loop over `dirMap`
in `Scanner.Scan`). -/
def finalizeDir (r : ScanResult) (dp : dirPackages) : ScanResult :=
  finalizeRust (finalizePython (finalizeGo r dp) dp) dp

/-- Stable insertion into a list sorted ascending by `RelPath`. -/
def pkgInsert (p : Package) : List Package → List Package
  | [] => [p]
  | q :: qs => if p.RelPath < q.RelPath then p :: q :: qs else q :: pkgInsert p qs

/-- `sort.Slice(..., RelPath[i] < RelPath[j])`: relative paths are unique
(one package per directory and language), so any sort by `RelPath` yields
the same list; a stable insertion sort realises it. -/
def pkgSort (l : List Package) : List Package := l.foldl (fun acc p => pkgInsert p acc) []

/-- The final per-language sorts of `Scanner.Scan` (main.go lines 450-459). -/
def sortResult (r : ScanResult) : ScanResult :=
  { r with GoPackages := pkgSort r.GoPackages
           PythonPackages := pkgSort r.PythonPackages
           RustPackages := pkgSort r.RustPackages }

/-- The directories `Scanner.Scan` visits.  The exclusion rule is applied
to every directory the walk reaches, the root included (a skipped root
yields an empty walk). -/
def scanDirsOf (root : FSDir) : List (List String × List FileEntry) :=
  if excludedDir root.name then [] else walkDirs [] root

/-- `Scanner.Scan` before the final sorts: walk all directories, then
finalise every directory's aggregation record. -/
def preSort (root : FSDir) : ScanResult :=
  let st := walkPhase (scanDirsOf root)
  st.2.foldl finalizeDir st.1

/-- `Scanner.Scan`. -/
def Scan (root : FSDir) : ScanResult := sortResult (preSort root)

/-- `metrics.LanguageSummary`. -/
structure LanguageSummary where
  Language : String
  BazelizationPct : ℚ
  TestCoveragePct : ℚ
  BazelizedTestsPct : ℚ
  TotalPackages : Nat
  TotalSourceFiles : Nat
  TotalTestFiles : Nat
  PackagesWithBuild : Nat
  PackagesWithTests : Nat
  TotalTestTargets : Nat
deriving DecidableEq

/-- The summary `calculateLanguageSummary` starts from: total-package count
filled in, every other counter and percentage zero. -/
def summaryInit (lang : String) (packages : List Package) : LanguageSummary :=
  { Language := lang
    BazelizationPct := 0
    TestCoveragePct := 0
    BazelizedTestsPct := 0
    TotalPackages := packages.length
    TotalSourceFiles := 0
    TotalTestFiles := 0
    PackagesWithBuild := 0
    PackagesWithTests := 0
    TotalTestTargets := 0 }

/-- One iteration of `calculateLanguageSummary`'s accumulation loop. -/
def summaryStep (s : LanguageSummary) (pkg : Package) : LanguageSummary :=
  let s := { s with TotalSourceFiles := s.TotalSourceFiles + pkg.SourceFileCount
                    TotalTestFiles := s.TotalTestFiles + pkg.TestFileCount
                    TotalTestTargets := s.TotalTestTargets + pkg.TestTargetCount }
  let s := if pkg.HasBuildFile then { s with PackagesWithBuild := s.PackagesWithBuild + 1 }
           else s
  if pkg.HasTestFiles then { s with PackagesWithTests := s.PackagesWithTests + 1 } else s

/-- The condition of `calculateLanguageSummary`'s second loop: a package
with test files that also has at least one test target. -/
def isBazelizedTest (pkg : Package) : Bool :=
  pkg.HasTestFiles && decide (0 < pkg.TestTargetCount)

/-- `Calculator.calculateLanguageSummary`. -/
def calculateLanguageSummary (lang : String) (packages : List Package) : LanguageSummary :=
  let summary := packages.foldl summaryStep (summaryInit lang packages)
  let summary :=
    if 0 < summary.TotalPackages then
      { summary with
        BazelizationPct :=
          (summary.PackagesWithBuild : ℚ) / (summary.TotalPackages : ℚ) * 100
        TestCoveragePct :=
          (summary.PackagesWithTests : ℚ) / (summary.TotalPackages : ℚ) * 100 }
    else summary
  let packagesWithBazelizedTests := packages.countP isBazelizedTest
  if 0 < summary.PackagesWithTests then
    { summary with
      BazelizedTestsPct :=
        (packagesWithBazelizedTests : ℚ) / (summary.PackagesWithTests : ℚ) * 100 }
  else summary

/-- `metrics.DirectoryMetrics`. -/
structure DirectoryMetrics where
  Name : String
  TotalPackages : Nat
  BazelizedPackages : Nat
  PackagesWithTests : Nat
  BazelizationPct : ℚ
  TestCoveragePct : ℚ
deriving DecidableEq

/-- Go `strings.Split(path, "/")` (the separator is the single character
"/"). -/
def splitSlashAux : List Char → List Char → List String
  | [], cur => [String.mk cur.reverse]
  | '/' :: cs, cur => String.mk cur.reverse :: splitSlashAux cs []
  | c :: cs, cur => splitSlashAux cs (c :: cur)

def splitSlash (s : String) : List String := splitSlashAux s.data []

/-- `metrics.getTopLevelDir`: first "/"-separated component of the path.
(`filepath.Clean` is the identity on the already-clean relative paths the
scanner produces — "." for the root, otherwise "/"-joined segments — so it
is not modelled separately.) -/
def getTopLevelDir (path : String) : String :=
  match splitSlash path with
  | [] => ""
  | p :: _ => p

/-- The grouping key of `calculateDirectoryBreakdown`: the top-level
directory, with "" and "." mapped to the sentinel "(root)". -/
def dirKeyOf (pkg : Package) : String :=
  let topDir := getTopLevelDir pkg.RelPath
  if topDir == "" || topDir == "." then "(root)" else topDir

/-- A fresh group entry (`&DirectoryMetrics{Name: topDir}`). -/
def newDirMetrics (key : String) : DirectoryMetrics :=
  { Name := key, TotalPackages := 0, BazelizedPackages := 0, PackagesWithTests := 0,
    BazelizationPct := 0, TestCoveragePct := 0 }

/-- Account one package into its group's counters. -/
def dmAdd (dm : DirectoryMetrics) (pkg : Package) : DirectoryMetrics :=
  let dm := { dm with TotalPackages := dm.TotalPackages + 1 }
  let dm := if pkg.HasBuildFile then
      { dm with BazelizedPackages := dm.BazelizedPackages + 1 }
    else dm
  if pkg.HasTestFiles then { dm with PackagesWithTests := dm.PackagesWithTests + 1 } else dm

/-- Get-or-create the group for `key` and account `pkg` into it (`dirMap`
modelled as an association list in encounter order). -/
def bumpDir (key : String) (pkg : Package) : List DirectoryMetrics → List DirectoryMetrics
  | [] => [dmAdd (newDirMetrics key) pkg]
  | dm :: rest =>
    if dm.Name == key then dmAdd dm pkg :: rest else dm :: bumpDir key pkg rest

/-- The group map of `calculateDirectoryBreakdown`, in encounter order. -/
def dirGroups (packages : List Package) : List DirectoryMetrics :=
  packages.foldl (fun l pkg => bumpDir (dirKeyOf pkg) pkg l) []

/-- The percentage pass of `calculateDirectoryBreakdown` on one group. -/
def dmWithPcts (dm : DirectoryMetrics) : DirectoryMetrics :=
  if 0 < dm.TotalPackages then
    { dm with
      BazelizationPct := (dm.BazelizedPackages : ℚ) / (dm.TotalPackages : ℚ) * 100
      TestCoveragePct := (dm.PackagesWithTests : ℚ) / (dm.TotalPackages : ℚ) * 100 }
  else dm

/-- The breakdown entries before sorting, in encounter order.  Go iterates
the group map in an unspecified order here; theorems that depend on the
order quantify over permutations of this list. -/
def dirEntries (packages : List Package) : List DirectoryMetrics :=
  (dirGroups packages).map dmWithPcts

/-- Insert into a list sorted descending by `TotalPackages`, after any
entry with an equal count. -/
def insertDirDesc (dm : DirectoryMetrics) :
    List DirectoryMetrics → List DirectoryMetrics
  | [] => [dm]
  | e :: es =>
    if e.TotalPackages < dm.TotalPackages then dm :: e :: es else e :: insertDirDesc dm es

/-- `sort.Slice(result, TotalPackages[i] > TotalPackages[j])`, realised as
an insertion sort. -/
def sortDirs (l : List DirectoryMetrics) : List DirectoryMetrics :=
  l.foldl (fun acc dm => insertDirDesc dm acc) []

/-- `Calculator.calculateDirectoryBreakdown`. -/
def calculateDirectoryBreakdown (packages : List Package) : List DirectoryMetrics :=
  sortDirs (dirEntries packages)

/-- `metrics.Summary` (the legacy Go-only summary). -/
structure Summary where
  BazelizationPct : ℚ
  TestCoveragePct : ℚ
  BazelizedTestsPct : ℚ
  TotalPackages : Nat
  TotalBuildFiles : Nat
  TotalTestFiles : Nat
  TotalGoFiles : Nat
  PackagesWithBuild : Nat
  PackagesWithTests : Nat
  TotalGoTestTargets : Nat
deriving DecidableEq

/-- The zero value of `Summary` (Go's zero struct). -/
def zeroSummary : Summary :=
  { BazelizationPct := 0, TestCoveragePct := 0, BazelizedTestsPct := 0,
    TotalPackages := 0, TotalBuildFiles := 0, TotalTestFiles := 0, TotalGoFiles := 0,
    PackagesWithBuild := 0, PackagesWithTests := 0, TotalGoTestTargets := 0 }

/-- `metrics.PackageInfo` (wire names `goTestTargetCount`/`goFileCount` are
kept by the JSON tags; the fields hold the per-language counts). -/
structure PackageInfo where
  Path : String
  Language : String
  HasBuildFile : Bool
  HasTestFiles : Bool
  TestFileCount : Nat
  TestTargetCount : Nat
  SourceFileCount : Nat
deriving DecidableEq

def toPackageInfo (lang : String) (pkg : Package) : PackageInfo :=
  { Path := pkg.RelPath
    Language := lang
    HasBuildFile := pkg.HasBuildFile
    HasTestFiles := pkg.HasTestFiles
    TestFileCount := pkg.TestFileCount
    TestTargetCount := pkg.TestTargetCount
    SourceFileCount := pkg.SourceFileCount }

/-- `metrics.Report` (Timestamp — wall-clock time — RepoPath and the
externally supplied SpeedComparison payload are not modelled; the
language-to-summary Go map is modelled as an association list in insertion
order). -/
structure Report where
  Summary : Summary
  DirectoryBreakdown : List DirectoryMetrics
  Packages : List PackageInfo
  Languages : List String
  LanguageSummaries : List (String × LanguageSummary)
  GoPackages : List PackageInfo
  PythonPackages : List PackageInfo
  RustPackages : List PackageInfo
deriving DecidableEq

/-- `Calculator.Calculate`. -/
def Calculate (scanResult : ScanResult) : Report :=
  let report : Report :=
    { Summary := zeroSummary, DirectoryBreakdown := [], Packages := [], Languages := [],
      LanguageSummaries := [], GoPackages := [], PythonPackages := [], RustPackages := [] }
  let report :=
    if 0 < scanResult.GoPackages.length then
      let goSummary := calculateLanguageSummary "go" scanResult.GoPackages
      let goPackages := scanResult.GoPackages.map (toPackageInfo "go")
      { report with
        Languages := report.Languages ++ ["go"]
        LanguageSummaries := report.LanguageSummaries ++ [("go", goSummary)]
        GoPackages := goPackages
        Packages := report.Packages ++ goPackages
        Summary :=
          { BazelizationPct := goSummary.BazelizationPct
            TestCoveragePct := goSummary.TestCoveragePct
            BazelizedTestsPct := goSummary.BazelizedTestsPct
            TotalPackages := goSummary.TotalPackages
            TotalBuildFiles := scanResult.TotalBUILDs
            TotalTestFiles := goSummary.TotalTestFiles
            TotalGoFiles := goSummary.TotalSourceFiles
            PackagesWithBuild := goSummary.PackagesWithBuild
            PackagesWithTests := goSummary.PackagesWithTests
            TotalGoTestTargets := goSummary.TotalTestTargets } }
    else report
  let report :=
    if 0 < scanResult.PythonPackages.length then
      let pySummary := calculateLanguageSummary "python" scanResult.PythonPackages
      { report with
        Languages := report.Languages ++ ["python"]
        LanguageSummaries := report.LanguageSummaries ++ [("python", pySummary)]
        PythonPackages := scanResult.PythonPackages.map (toPackageInfo "python") }
    else report
  let report :=
    if 0 < scanResult.RustPackages.length then
      let rustSummary := calculateLanguageSummary "rust" scanResult.RustPackages
      { report with
        Languages := report.Languages ++ ["rust"]
        LanguageSummaries := report.LanguageSummaries ++ [("rust", rustSummary)]
        RustPackages := scanResult.RustPackages.map (toPackageInfo "rust") }
    else report
  { report with DirectoryBreakdown := calculateDirectoryBreakdown scanResult.GoPackages }

/-- The specification every emitted percentage must satisfy: in [0,100],
exactly `100 * num / den` for a positive denominator, exactly 0 for a zero
denominator. -/
def PctSpec (pct : ℚ) (num den : Nat) : Prop :=
  0 ≤ pct ∧ pct ≤ 100 ∧ (0 < den → pct = 100 * (num : ℚ) / (den : ℚ)) ∧ (den = 0 → pct = 0)

/-- Descending order on breakdown entries by total-package count. -/
def dmGE (a b : DirectoryMetrics) : Prop := b.TotalPackages ≤ a.TotalPackages

/-- A path segment that survives the walk's exclusion rule. -/
def goodSeg (s : String) : Prop :=
  strStartsWith s "." = false ∧ skipDirs.contains s = false ∧
    strStartsWith s "bazel-" = false

/-- What holds of every embryonic package during the walk: location fields
copied from its directory, and the manifest-derived fields untouched (they
are only assigned during finalisation). -/
def wpkg (rp : String) (rs : List String) (p : Package) : Prop :=
  p.RelPath = rp ∧ p.RelSegs = rs ∧ p.HasBuildFile = false ∧
  p.TestTargetCount = 0 ∧ p.LibraryTargets = 0 ∧ p.BinaryTargets = 0

/-- Invariant of a directory's aggregation record during the walk.  The
Rust package additionally has no test files and no test-file count, since
`.rs` files are always classified as source files. -/
def dpInv (dp : dirPackages) : Prop :=
  (∀ p, dp.goPkg = some p → wpkg dp.relPath dp.relSegs p) ∧
  (∀ p, dp.pythonPkg = some p → wpkg dp.relPath dp.relSegs p) ∧
  (∀ p, dp.rustPkg = some p →
    wpkg dp.relPath dp.relSegs p ∧ p.HasTestFiles = false ∧ p.TestFileCount = 0)

/-- The Go packages one directory contributes to the scan result. -/
def goOut (dp : dirPackages) : List Package :=
  match dp.goPkg with
  | none => []
  | some p => [goFinal dp p]

/-- The Python packages one directory contributes. -/
def pyOut (dp : dirPackages) : List Package :=
  match dp.pythonPkg with
  | none => []
  | some p => [pyFinal dp p]

/-- The Rust packages one directory contributes. -/
def rustOut (dp : dirPackages) : List Package :=
  match dp.rustPkg with
  | none => []
  | some p => [rustFinal dp p]

/-- The amount one directory adds to the global Rust test-file total during
finalisation. -/
def rustAdd (dp : dirPackages) : Nat :=
  match dp.rustPkg with
  | none => 0
  | some _ =>
    match dp.targets with
    | none => 0
    | some t => if 0 < t.rustTests then t.rustTests else 0

/-- A concrete Go package in directory "a", bazelized and tested. -/
def cPkgA : Package :=
  { RelPath := "a/x", RelSegs := ["a", "x"], Language := Language.go,
    HasBuildFile := true, HasTestFiles := true, SourceFileCount := 1,
    TestFileCount := 1, TestTargetCount := 1, LibraryTargets := 0, BinaryTargets := 0 }

/-- A concrete Go package in directory "b", neither bazelized nor tested. -/
def cPkgB : Package :=
  { RelPath := "b/y", RelSegs := ["b", "y"], Language := Language.go,
    HasBuildFile := false, HasTestFiles := false, SourceFileCount := 1,
    TestFileCount := 0, TestTargetCount := 0, LibraryTargets := 0, BinaryTargets := 0 }

/-- The breakdown entry for directory "a" of `[cPkgA, cPkgB]`. -/
def c6dmA : DirectoryMetrics :=
  { Name := "a", TotalPackages := 1, BazelizedPackages := 1, PackagesWithTests := 1,
    BazelizationPct := 100, TestCoveragePct := 100 }

/-- The breakdown entry for directory "b" of `[cPkgA, cPkgB]`. -/
def c6dmB : DirectoryMetrics :=
  { Name := "b", TotalPackages := 1, BazelizedPackages := 0, PackagesWithTests := 0,
    BazelizationPct := 0, TestCoveragePct := 0 }

/-- The group record for directory "a" of `[cPkgA, cPkgB]`, before the
percentage pass. -/
def c6gA : DirectoryMetrics :=
  { Name := "a", TotalPackages := 1, BazelizedPackages := 1, PackagesWithTests := 1,
    BazelizationPct := 0, TestCoveragePct := 0 }

/-- The group record for directory "b" of `[cPkgA, cPkgB]`, before the
percentage pass. -/
def c6gB : DirectoryMetrics :=
  { Name := "b", TotalPackages := 1, BazelizedPackages := 0, PackagesWithTests := 0,
    BazelizationPct := 0, TestCoveragePct := 0 }

/-- Counter invariant of breakdown groups: per-group counts are bounded by
the group total, and the percentages are still at their zero value. -/
def GroupOk (dm : DirectoryMetrics) : Prop :=
  dm.BazelizedPackages ≤ dm.TotalPackages ∧ dm.PackagesWithTests ≤ dm.TotalPackages ∧
    dm.BazelizationPct = 0 ∧ dm.TestCoveragePct = 0

/-- A repository whose root manifest is unreadable and which holds one Go
file. -/
def c2tree : FSDir := .node "repo" [⟨"BUILD", none⟩, ⟨"a.go", none⟩] .nil

/-- The Go package `Scan c2tree` produces. -/
def c2pkg : Package :=
  { RelPath := ".", RelSegs := [], Language := Language.go, HasBuildFile := true,
    HasTestFiles := false, SourceFileCount := 1, TestFileCount := 0,
    TestTargetCount := 0, LibraryTargets := 0, BinaryTargets := 0 }

/-- A repository with one Rust file and a manifest declaring two
`rust_test` targets. -/
def c5tree : FSDir :=
  .node "repo" [⟨"BUILD", some "rust_test(\nrust_test(\n"⟩, ⟨"lib.rs", none⟩] .nil

/-- The Rust package `Scan c5tree` produces. -/
def c5pkg : Package :=
  { RelPath := ".", RelSegs := [], Language := Language.rust, HasBuildFile := true,
    HasTestFiles := true, SourceFileCount := 1, TestFileCount := 2,
    TestTargetCount := 2, LibraryTargets := 0, BinaryTargets := 0 }

/-- A repository with a single root-level Go file (its package's relative
path is the sentinel "."). -/
def c7ctree : FSDir := .node "repo" [⟨"main.go", none⟩] .nil

/-- A repository whose only Go file lives in the subdirectory "sub". -/
def c7wtree : FSDir := .node "repo" [] (.cons (.node "sub" [⟨"a.go", none⟩] .nil) .nil)

/-- The Go package `Scan c7wtree` produces. -/
def c7wpkg : Package :=
  { RelPath := "sub", RelSegs := ["sub"], Language := Language.go, HasBuildFile := false,
    HasTestFiles := false, SourceFileCount := 1, TestFileCount := 0,
    TestTargetCount := 0, LibraryTargets := 0, BinaryTargets := 0 }

/-- A repository with a dot-named Go file at the root, and another Go file
inside a dot-named (hence excluded) subdirectory. -/
def c9tree : FSDir :=
  .node "repo" [⟨".helper.go", none⟩] (.cons (.node ".hidden" [⟨"a.go", none⟩] .nil) .nil)

/-- A repository whose root directory contains both accepted manifest
spellings and one Go file. -/
def c10tree : FSDir :=
  .node "repo"
    [⟨"BUILD", some "go_library(\n"⟩, ⟨"BUILD.bazel", some ""⟩, ⟨"a.go", none⟩] .nil

theorem summaryStep_eq (s : LanguageSummary) (pkg : Package) :
    summaryStep s pkg =
      { s with
        TotalSourceFiles := s.TotalSourceFiles + pkg.SourceFileCount
        TotalTestFiles := s.TotalTestFiles + pkg.TestFileCount
        TotalTestTargets := s.TotalTestTargets + pkg.TestTargetCount
        PackagesWithBuild := s.PackagesWithBuild + if pkg.HasBuildFile then 1 else 0
        PackagesWithTests := s.PackagesWithTests + if pkg.HasTestFiles then 1 else 0 } := by
  cases hb : pkg.HasBuildFile <;> cases ht : pkg.HasTestFiles <;>
    simp [summaryStep, hb, ht]

theorem summaryFold_eq (s : LanguageSummary) (pkgs : List Package) :
    pkgs.foldl summaryStep s =
      { s with
        TotalSourceFiles := s.TotalSourceFiles + (pkgs.map fun p => p.SourceFileCount).sum
        TotalTestFiles := s.TotalTestFiles + (pkgs.map fun p => p.TestFileCount).sum
        TotalTestTargets := s.TotalTestTargets + (pkgs.map fun p => p.TestTargetCount).sum
        PackagesWithBuild := s.PackagesWithBuild + pkgs.countP fun p => p.HasBuildFile
        PackagesWithTests := s.PackagesWithTests + pkgs.countP fun p => p.HasTestFiles } := by
  induction pkgs generalizing s with
  | nil => simp
  | cons p ps ih =>
    rw [List.foldl_cons, summaryStep_eq, ih]
    cases hb : p.HasBuildFile <;> cases ht : p.HasTestFiles <;>
      simp [hb, ht, List.countP_cons] <;> omega

theorem calculateLanguageSummary_eq (lang : String) (pkgs : List Package) :
    calculateLanguageSummary lang pkgs =
      { Language := lang
        BazelizationPct :=
          if 0 < pkgs.length then
            ((pkgs.countP fun p => p.HasBuildFile : Nat) : ℚ) / (pkgs.length : ℚ) * 100
          else 0
        TestCoveragePct :=
          if 0 < pkgs.length then
            ((pkgs.countP fun p => p.HasTestFiles : Nat) : ℚ) / (pkgs.length : ℚ) * 100
          else 0
        BazelizedTestsPct :=
          if 0 < pkgs.countP (fun p => p.HasTestFiles) then
            ((pkgs.countP isBazelizedTest : Nat) : ℚ) /
              ((pkgs.countP fun p => p.HasTestFiles : Nat) : ℚ) * 100
          else 0
        TotalPackages := pkgs.length
        TotalSourceFiles := (pkgs.map fun p => p.SourceFileCount).sum
        TotalTestFiles := (pkgs.map fun p => p.TestFileCount).sum
        PackagesWithBuild := pkgs.countP fun p => p.HasBuildFile
        PackagesWithTests := pkgs.countP fun p => p.HasTestFiles
        TotalTestTargets := (pkgs.map fun p => p.TestTargetCount).sum } := by
  unfold calculateLanguageSummary
  rw [summaryFold_eq]
  by_cases h1 : 0 < pkgs.length <;>
    by_cases h2 : 0 < pkgs.countP (fun p => p.HasTestFiles) <;>
      simp [summaryInit, h1, h2]

theorem pctSpec_pos (num den : Nat) (h : num ≤ den) (hpos : 0 < den) :
    PctSpec ((num : ℚ) / (den : ℚ) * 100) num den := by
  have hd : (0 : ℚ) < (den : ℚ) := by exact_mod_cast hpos
  have hnd : (num : ℚ) / (den : ℚ) ≤ 1 := by
    rw [div_le_one hd]; exact_mod_cast h
  have hnn : (0 : ℚ) ≤ (num : ℚ) / (den : ℚ) := by positivity
  refine ⟨by positivity, by nlinarith, fun _ => by ring, fun hz => by omega⟩

theorem pctSpec_zero_den (num : Nat) : PctSpec 0 num 0 :=
  ⟨le_refl 0, by norm_num, fun hp => by omega, fun _ => rfl⟩

theorem pctSpec_ite (num den : Nat) (h : num ≤ den) :
    PctSpec (if 0 < den then (num : ℚ) / (den : ℚ) * 100 else 0) num den := by
  rcases Nat.eq_zero_or_pos den with h0 | hpos
  · subst h0
    rw [if_neg (by omega)]
    exact pctSpec_zero_den num
  · rw [if_pos hpos]
    exact pctSpec_pos num den h hpos

theorem dmAdd_eq (dm : DirectoryMetrics) (pkg : Package) :
    dmAdd dm pkg =
      { dm with
        TotalPackages := dm.TotalPackages + 1
        BazelizedPackages := dm.BazelizedPackages + if pkg.HasBuildFile then 1 else 0
        PackagesWithTests := dm.PackagesWithTests + if pkg.HasTestFiles then 1 else 0 } := by
  cases hb : pkg.HasBuildFile <;> cases ht : pkg.HasTestFiles <;> simp [dmAdd, hb, ht]

theorem dmAdd_ok (dm : DirectoryMetrics) (pkg : Package) (h : GroupOk dm) :
    GroupOk (dmAdd dm pkg) := by
  obtain ⟨h1, h2, h3, h4⟩ := h
  rw [dmAdd_eq]
  refine ⟨?_, ?_, h3, h4⟩ <;> dsimp only <;> split <;> omega

theorem bumpDir_ok (key : String) (pkg : Package) (l : List DirectoryMetrics)
    (h : ∀ dm ∈ l, GroupOk dm) : ∀ dm ∈ bumpDir key pkg l, GroupOk dm := by
  induction l with
  | nil =>
    intro dm hdm
    rcases List.mem_singleton.mp hdm with rfl
    exact dmAdd_ok _ _ ⟨le_refl 0, le_refl 0, rfl, rfl⟩
  | cons e es ih =>
    intro dm hdm
    unfold bumpDir at hdm
    split at hdm
    · rcases List.mem_cons.mp hdm with rfl | hdm
      · exact dmAdd_ok _ _ (h e (List.mem_cons_self e es))
      · exact h dm (List.mem_cons_of_mem e hdm)
    · rcases List.mem_cons.mp hdm with rfl | hdm
      · exact h dm (List.mem_cons_self dm es)
      · exact ih (fun x hx => h x (List.mem_cons_of_mem e hx)) dm hdm

theorem dirGroups_ok (pkgs : List Package) : ∀ dm ∈ dirGroups pkgs, GroupOk dm := by
  suffices h : ∀ (l : List DirectoryMetrics), (∀ dm ∈ l, GroupOk dm) →
      ∀ dm ∈ pkgs.foldl (fun l pkg => bumpDir (dirKeyOf pkg) pkg l) l, GroupOk dm by
    exact h [] (by intro dm hdm; cases hdm)
  induction pkgs with
  | nil => intro l hl; exact hl
  | cons p ps ih =>
    intro l hl
    rw [List.foldl_cons]
    exact ih _ (bumpDir_ok _ _ _ hl)

theorem dmWithPcts_TotalPackages (dm : DirectoryMetrics) :
    (dmWithPcts dm).TotalPackages = dm.TotalPackages := by
  unfold dmWithPcts; split <;> rfl

theorem dmWithPcts_spec (dm : DirectoryMetrics) (h : GroupOk dm) :
    PctSpec (dmWithPcts dm).BazelizationPct (dmWithPcts dm).BazelizedPackages
      (dmWithPcts dm).TotalPackages ∧
    PctSpec (dmWithPcts dm).TestCoveragePct (dmWithPcts dm).PackagesWithTests
      (dmWithPcts dm).TotalPackages := by
  obtain ⟨h1, h2, h3, h4⟩ := h
  unfold dmWithPcts
  split
  · next hpos => exact ⟨pctSpec_pos _ _ h1 hpos, pctSpec_pos _ _ h2 hpos⟩
  · next hpos =>
    have hz : dm.TotalPackages = 0 := by omega
    rw [h3, h4, hz]
    exact ⟨pctSpec_zero_den _, pctSpec_zero_den _⟩

theorem insertDirDesc_perm (dm : DirectoryMetrics) (l : List DirectoryMetrics) :
    (insertDirDesc dm l).Perm (dm :: l) := by
  induction l with
  | nil => exact List.Perm.refl _
  | cons e es ih =>
    unfold insertDirDesc
    split
    · exact List.Perm.refl _
    · exact (ih.cons e).trans (List.Perm.swap dm e es)

theorem sortDirs_perm (l : List DirectoryMetrics) : (sortDirs l).Perm l := by
  suffices h : ∀ (l acc : List DirectoryMetrics),
      (l.foldl (fun acc dm => insertDirDesc dm acc) acc).Perm (acc ++ l) by
    simpa using h l []
  intro l
  induction l with
  | nil => intro acc; simp
  | cons d ds ih =>
    intro acc
    rw [List.foldl_cons]
    exact ((ih _).trans (((insertDirDesc_perm d acc).append_right ds).trans
      List.perm_middle.symm))

theorem insertDirDesc_pairwise (dm : DirectoryMetrics) (l : List DirectoryMetrics)
    (h : List.Pairwise dmGE l) : List.Pairwise dmGE (insertDirDesc dm l) := by
  induction l with
  | nil => simp [insertDirDesc]
  | cons e es ih =>
    rw [List.pairwise_cons] at h
    obtain ⟨he, hes⟩ := h
    unfold insertDirDesc
    split
    · next hlt =>
      rw [List.pairwise_cons]
      refine ⟨?_, List.pairwise_cons.mpr ⟨he, hes⟩⟩
      intro x hx
      rcases List.mem_cons.mp hx with rfl | hx
      · exact Nat.le_of_lt hlt
      · exact Nat.le_trans (he x hx) (Nat.le_of_lt hlt)
    · next hlt =>
      rw [List.pairwise_cons]
      refine ⟨?_, ih hes⟩
      intro x hx
      rcases List.mem_cons.mp ((insertDirDesc_perm dm es).mem_iff.mp hx) with rfl | hx
      · exact Nat.le_of_not_lt hlt
      · exact he x hx

theorem sortDirs_pairwise (l : List DirectoryMetrics) :
    List.Pairwise dmGE (sortDirs l) := by
  suffices h : ∀ (l acc : List DirectoryMetrics), List.Pairwise dmGE acc →
      List.Pairwise dmGE (l.foldl (fun acc dm => insertDirDesc dm acc) acc) by
    exact h l [] List.Pairwise.nil
  intro l
  induction l with
  | nil => intro acc hacc; exact hacc
  | cons d ds ih =>
    intro acc hacc
    rw [List.foldl_cons]
    exact ih _ (insertDirDesc_pairwise d acc hacc)

theorem bumpDir_sum (key : String) (pkg : Package) (l : List DirectoryMetrics) :
    ((bumpDir key pkg l).map fun dm => dm.TotalPackages).sum
      = ((l.map fun dm => dm.TotalPackages).sum) + 1 := by
  induction l with
  | nil => simp [bumpDir, dmAdd_eq, newDirMetrics]
  | cons e es ih =>
    unfold bumpDir
    split
    · simp [dmAdd_eq]; omega
    · simp only [List.map_cons, List.sum_cons, ih]; omega

/-- C1: for every language, `calculateLanguageSummary` reports
packages-with-tests as the number of packages with test files, and the
bazelized-tests percentage as 100 times the number of packages that have
BOTH test files AND a positive test-target count, divided by the number of
packages with test files — 0 when that denominator is 0; the numerator
never exceeds the denominator (a package with a test target but no test
files is not counted). -/
theorem c1_bazelized_tests_pct (lang : String) (pkgs : List Package) :
    (calculateLanguageSummary lang pkgs).PackagesWithTests
        = pkgs.countP (fun p => p.HasTestFiles) ∧
    (0 < (calculateLanguageSummary lang pkgs).PackagesWithTests →
      (calculateLanguageSummary lang pkgs).BazelizedTestsPct =
        100 * ((pkgs.countP fun p => p.HasTestFiles && decide (0 < p.TestTargetCount) : Nat) : ℚ) /
          (((calculateLanguageSummary lang pkgs).PackagesWithTests : Nat) : ℚ)) ∧
    ((calculateLanguageSummary lang pkgs).PackagesWithTests = 0 →
      (calculateLanguageSummary lang pkgs).BazelizedTestsPct = 0) ∧
    (pkgs.countP fun p => p.HasTestFiles && decide (0 < p.TestTargetCount)) ≤
      pkgs.countP (fun p => p.HasTestFiles) := by
  rw [calculateLanguageSummary_eq]
  refine ⟨rfl, ?_, ?_, ?_⟩
  · intro h
    dsimp only at h ⊢
    rw [if_pos h]
    rw [show (fun p : Package => p.HasTestFiles && decide (0 < p.TestTargetCount))
        = isBazelizedTest from rfl]
    ring
  · intro h
    dsimp only at h ⊢
    rw [if_neg (by omega)]
  · refine List.countP_mono_left (fun x _ hx => ?_)
    simp only [Bool.and_eq_true] at hx
    exact hx.1

/-- C1 witness: on a one-package list whose package has test files and one
test target, the bazelized-tests percentage equals the claimed quotient. -/
theorem c1_witness :
    (calculateLanguageSummary "go" [cPkgA]).BazelizedTestsPct =
      100 * (([cPkgA].countP fun p => p.HasTestFiles && decide (0 < p.TestTargetCount) : Nat) : ℚ) /
        ((((calculateLanguageSummary "go" [cPkgA]).PackagesWithTests : Nat)) : ℚ) :=
  (c1_bazelized_tests_pct "go" [cPkgA]).2.1 (by decide)

/-- C4: every language summary's bazelization and test-coverage
percentages, and every directory-breakdown entry's two percentages, lie in
[0,100], equal exactly 100·count/total when the total is positive, and
equal exactly 0 when the total is 0 (no division by zero is performed; the
zero-denominator case is a guarded constant). -/
theorem c4_percentages (lang : String) (pkgs : List Package) :
    PctSpec (calculateLanguageSummary lang pkgs).BazelizationPct
      (calculateLanguageSummary lang pkgs).PackagesWithBuild
      (calculateLanguageSummary lang pkgs).TotalPackages ∧
    PctSpec (calculateLanguageSummary lang pkgs).TestCoveragePct
      (calculateLanguageSummary lang pkgs).PackagesWithTests
      (calculateLanguageSummary lang pkgs).TotalPackages ∧
    ∀ dm ∈ calculateDirectoryBreakdown pkgs,
      PctSpec dm.BazelizationPct dm.BazelizedPackages dm.TotalPackages ∧
      PctSpec dm.TestCoveragePct dm.PackagesWithTests dm.TotalPackages := by
  refine ⟨?_, ?_, ?_⟩
  · rw [calculateLanguageSummary_eq]
    exact pctSpec_ite _ _ (List.countP_le_length _)
  · rw [calculateLanguageSummary_eq]
    exact pctSpec_ite _ _ (List.countP_le_length _)
  · intro dm hdm
    have hmem : dm ∈ dirEntries pkgs :=
      (sortDirs_perm (dirEntries pkgs)).mem_iff.mp hdm
    obtain ⟨g, hg, rfl⟩ := List.mem_map.mp hmem
    exact dmWithPcts_spec g (dirGroups_ok pkgs g hg)

/-- C4 witness: on a concrete one-package list the bazelization percentage
equals the claimed quotient of its own counters. -/
theorem c4_witness :
    (calculateLanguageSummary "go" [cPkgA]).BazelizationPct =
      100 * (((calculateLanguageSummary "go" [cPkgA]).PackagesWithBuild : Nat) : ℚ) /
        (((calculateLanguageSummary "go" [cPkgA]).TotalPackages : Nat) : ℚ) := by
  obtain ⟨-, -, h, -⟩ := (c4_percentages "go" [cPkgA]).1
  exact h (by decide)

/-- C6 (amended): for any iteration order of the group map (Go map
iteration order is unspecified), the directory breakdown is sorted by
total-package count in descending order and contains exactly the group
entries; the relative order of entries with equal counts is not specified
(see the counterexample). -/
theorem c6_breakdown_sorted (pkgs : List Package) (l : List DirectoryMetrics)
    (h : l.Perm (dirEntries pkgs)) :
    (sortDirs l).Perm (dirEntries pkgs) ∧ List.Pairwise dmGE (sortDirs l) :=
  ⟨(sortDirs_perm l).trans h, sortDirs_pairwise l⟩

/-- C6 witness: sorting the encounter-order entry list of a concrete
two-package input yields a permutation of it that is descending by
total-package count. -/
theorem c6_witness :
    (sortDirs (dirEntries [cPkgA, cPkgB])).Perm (dirEntries [cPkgA, cPkgB]) ∧
    List.Pairwise dmGE (sortDirs (dirEntries [cPkgA, cPkgB])) :=
  c6_breakdown_sorted [cPkgA, cPkgB] (dirEntries [cPkgA, cPkgB]) (List.Perm.refl _)

/-- C6 counterexample: the claim that tied entries retain encounter order
fails.  For the two-package input `[cPkgA, cPkgB]` the encounter order of
the groups is ["a", "b"]; the list `[c6dmB, c6dmA]` is a permutation of the
group entries — hence a legal iteration order of the Go map — and sorting
it leaves it unchanged (both counts equal 1), producing ["b", "a"], not the
encounter order. -/
theorem c6_counterexample :
    [c6dmB, c6dmA].Perm (dirEntries [cPkgA, cPkgB]) ∧
    sortDirs [c6dmB, c6dmA] = [c6dmB, c6dmA] ∧
    dirEntries [cPkgA, cPkgB] = [c6dmA, c6dmB] ∧
    c6dmA.TotalPackages = c6dmB.TotalPackages ∧ c6dmA ≠ c6dmB := by
  have hg : dirGroups [cPkgA, cPkgB] = [c6gA, c6gB] := by decide
  have hA : dmWithPcts c6gA = c6dmA := by
    simp only [dmWithPcts, c6gA, c6dmA]
    norm_num
  have hB : dmWithPcts c6gB = c6dmB := by
    simp only [dmWithPcts, c6gB, c6dmB]
    norm_num
  have he : dirEntries [cPkgA, cPkgB] = [c6dmA, c6dmB] := by
    rw [dirEntries, hg, List.map_cons, List.map_cons, List.map_nil, hA, hB]
  refine ⟨?_, by decide, he, by decide, by decide⟩
  rw [he]
  exact List.Perm.swap _ _ _

theorem dirGroups_sum (pkgs : List Package) :
    ((dirGroups pkgs).map fun dm => dm.TotalPackages).sum = pkgs.length := by
  suffices h : ∀ (l : List DirectoryMetrics),
      (((pkgs.foldl (fun l pkg => bumpDir (dirKeyOf pkg) pkg l) l).map
        fun dm => dm.TotalPackages).sum)
      = ((l.map fun dm => dm.TotalPackages).sum) + pkgs.length by
    simpa using h []
  induction pkgs with
  | nil => intro l; simp
  | cons p ps ih =>
    intro l
    rw [List.foldl_cons]
    rw [ih (bumpDir (dirKeyOf p) p l), bumpDir_sum]
    simp; omega

/-- C8: the `totalPackages` fields of the directory-breakdown entries sum
to the language summary's total package count — the grouping by first path
segment (with "(root)" for the repository root) partitions the package
list. -/
theorem c8_breakdown_complete (pkgs : List Package) :
    ((calculateDirectoryBreakdown pkgs).map fun dm => dm.TotalPackages).sum
      = (calculateLanguageSummary "go" pkgs).TotalPackages := by
  have hperm : (((sortDirs (dirEntries pkgs)).map fun dm => dm.TotalPackages)).Perm
      ((dirEntries pkgs).map fun dm => dm.TotalPackages) :=
    (sortDirs_perm (dirEntries pkgs)).map _
  rw [calculateDirectoryBreakdown, hperm.sum_eq, dirEntries, List.map_map]
  have hcomp : ((fun dm => dm.TotalPackages) ∘ dmWithPcts)
      = fun dm : DirectoryMetrics => dm.TotalPackages :=
    funext fun dm => dmWithPcts_TotalPackages dm
  rw [hcomp, dirGroups_sum, calculateLanguageSummary_eq]

/-- C3 (amended): the manifest text consisting of the lines
`load("@rules")`, `go_test(` and the indented `  go_test(` yields a Go
test-role count of 2; the single comment line `# go_test(` yields a count
of 0, because the line-anchored pattern admits only whitespace before the
rule name, so comment lines do not match. -/
theorem c3_manifest_counts :
    (parseBuildFile "load(\"@rules\")\ngo_test(\n  go_test(").goTests = 2 ∧
    (parseBuildFile "# go_test(").goTests = 0 := by
  exact ⟨by decide, by decide⟩

/-- C3 counterexample: the claim asserts the single line `# go_test(`
yields a Go test-role count of 1; the counter returns 0 (the `#` before
the rule name is not whitespace, so the `^\s*go_test\s*\(` pattern cannot
match). -/
theorem c3_counterexample : ¬ (parseBuildFile "# go_test(").goTests = 1 := by decide

/-- C9: the leading-dot exclusion applies only to directories.  Scanning a
tree whose root holds the file ".helper.go" and a dot-named subdirectory
with another Go file yields exactly one Go package — for the root, created
by the dot-named file and counting it as a Go source file — while the
dot-named directory's subtree contributes nothing. -/
theorem c9_dot_file_counted :
    (Scan c9tree).GoPackages =
      [{ RelPath := ".", RelSegs := [], Language := Language.go, HasBuildFile := false,
         HasTestFiles := false, SourceFileCount := 1, TestFileCount := 0,
         TestTargetCount := 0, LibraryTargets := 0, BinaryTargets := 0 }] ∧
    (Scan c9tree).TotalGoFiles = 1 ∧ (Scan c9tree).TotalGoTests = 0 := by
  exact ⟨by decide, by decide, by decide⟩

theorem buildStep_untouched (dp : dirPackages) (f : FileEntry) :
    (buildStep dp f).goPkg = dp.goPkg ∧ (buildStep dp f).pythonPkg = dp.pythonPkg ∧
    (buildStep dp f).rustPkg = dp.rustPkg ∧ (buildStep dp f).relPath = dp.relPath ∧
    (buildStep dp f).relSegs = dp.relSegs := by
  unfold buildStep
  split_ifs
  · cases f.content <;> exact ⟨rfl, rfl, rfl, rfl, rfl⟩
  · exact ⟨rfl, rfl, rfl, rfl, rfl⟩

theorem buildStep_hasBuild (dp : dirPackages) (f : FileEntry) :
    (buildStep dp f).hasBuild = (dp.hasBuild || isManifestName f.name) := by
  unfold buildStep
  split_ifs with h
  · cases f.content <;> simp [h]
  · simp only [Bool.not_eq_true] at h
    simp [h]

theorem buildStep_targets_unread (dp : dirPackages) (f : FileEntry)
    (h : isManifestName f.name = true → f.content = none) :
    (buildStep dp f).targets = dp.targets := by
  unfold buildStep
  split_ifs with hm
  · rw [h hm]
  · rfl

theorem goStep_untouched (dp : dirPackages) (f : FileEntry) :
    (goStep dp f).hasBuild = dp.hasBuild ∧ (goStep dp f).targets = dp.targets ∧
    (goStep dp f).pythonPkg = dp.pythonPkg ∧ (goStep dp f).rustPkg = dp.rustPkg ∧
    (goStep dp f).relPath = dp.relPath ∧ (goStep dp f).relSegs = dp.relSegs := by
  unfold goStep
  split_ifs <;> exact ⟨rfl, rfl, rfl, rfl, rfl, rfl⟩

theorem pyStep_untouched (dp : dirPackages) (f : FileEntry) :
    (pyStep dp f).hasBuild = dp.hasBuild ∧ (pyStep dp f).targets = dp.targets ∧
    (pyStep dp f).goPkg = dp.goPkg ∧ (pyStep dp f).rustPkg = dp.rustPkg ∧
    (pyStep dp f).relPath = dp.relPath ∧ (pyStep dp f).relSegs = dp.relSegs := by
  unfold pyStep
  split_ifs <;> exact ⟨rfl, rfl, rfl, rfl, rfl, rfl⟩

theorem rsStep_untouched (dp : dirPackages) (f : FileEntry) :
    (rsStep dp f).hasBuild = dp.hasBuild ∧ (rsStep dp f).targets = dp.targets ∧
    (rsStep dp f).goPkg = dp.goPkg ∧ (rsStep dp f).pythonPkg = dp.pythonPkg ∧
    (rsStep dp f).relPath = dp.relPath ∧ (rsStep dp f).relSegs = dp.relSegs := by
  unfold rsStep
  split_ifs <;> exact ⟨rfl, rfl, rfl, rfl, rfl, rfl⟩

theorem fileDp_hasBuild (dp : dirPackages) (f : FileEntry) :
    (fileDp dp f).hasBuild = (dp.hasBuild || isManifestName f.name) := by
  unfold fileDp
  rw [(rsStep_untouched _ f).1, (pyStep_untouched _ f).1, (goStep_untouched _ f).1,
    buildStep_hasBuild]

theorem fileDp_targets_unread (dp : dirPackages) (f : FileEntry)
    (h : isManifestName f.name = true → f.content = none) :
    (fileDp dp f).targets = dp.targets := by
  unfold fileDp
  rw [(rsStep_untouched _ f).2.1, (pyStep_untouched _ f).2.1, (goStep_untouched _ f).2.1,
    buildStep_targets_unread dp f h]

theorem fileDp_relPath (dp : dirPackages) (f : FileEntry) :
    (fileDp dp f).relPath = dp.relPath := by
  unfold fileDp
  rw [(rsStep_untouched _ f).2.2.2.2.1, (pyStep_untouched _ f).2.2.2.2.1,
    (goStep_untouched _ f).2.2.2.2.1, (buildStep_untouched _ f).2.2.2.1]

theorem fileDp_relSegs (dp : dirPackages) (f : FileEntry) :
    (fileDp dp f).relSegs = dp.relSegs := by
  unfold fileDp
  rw [(rsStep_untouched _ f).2.2.2.2.2, (pyStep_untouched _ f).2.2.2.2.2,
    (goStep_untouched _ f).2.2.2.2.2, (buildStep_untouched _ f).2.2.2.2]

theorem mkPkg_wpkg (dp : dirPackages) (lang : Language) :
    wpkg dp.relPath dp.relSegs (mkPkg dp lang) :=
  ⟨rfl, rfl, rfl, rfl, rfl, rfl⟩

theorem wpkg_getOr (o : Option Package) (dp : dirPackages) (lang : Language)
    (h : ∀ p, o = some p → wpkg dp.relPath dp.relSegs p) :
    wpkg dp.relPath dp.relSegs (getOr o dp lang) := by
  cases hcase : o with
  | some q => exact h q hcase
  | none => exact mkPkg_wpkg dp lang

theorem wpkg_bumpTest (rp : String) (rs : List String) (p : Package)
    (h : wpkg rp rs p) : wpkg rp rs (bumpTest p) :=
  ⟨h.1, h.2.1, h.2.2.1, h.2.2.2.1, h.2.2.2.2.1, h.2.2.2.2.2⟩

theorem wpkg_bumpSrc (rp : String) (rs : List String) (p : Package)
    (h : wpkg rp rs p) : wpkg rp rs (bumpSrc p) :=
  ⟨h.1, h.2.1, h.2.2.1, h.2.2.2.1, h.2.2.2.2.1, h.2.2.2.2.2⟩

theorem buildStep_inv (dp : dirPackages) (f : FileEntry) (h : dpInv dp) :
    dpInv (buildStep dp f) := by
  obtain ⟨hg, hp, hr⟩ := h
  obtain ⟨u1, u2, u3, u4, u5⟩ := buildStep_untouched dp f
  refine ⟨?_, ?_, ?_⟩
  · intro p hp'
    rw [u1] at hp'
    rw [u4, u5]
    exact hg p hp'
  · intro p hp'
    rw [u2] at hp'
    rw [u4, u5]
    exact hp p hp'
  · intro p hp'
    rw [u3] at hp'
    rw [u4, u5]
    exact hr p hp'

theorem goStep_inv (dp : dirPackages) (f : FileEntry) (h : dpInv dp) :
    dpInv (goStep dp f) := by
  obtain ⟨hg, hp, hr⟩ := h
  obtain ⟨u1, u2, u3, u4, u5, u6⟩ := goStep_untouched dp f
  refine ⟨?_, ?_, ?_⟩
  · intro p hp'
    rw [u5, u6]
    unfold goStep at hp'
    split_ifs at hp' with hgo hts
    · injection hp' with hpe
      subst hpe
      exact wpkg_bumpTest _ _ _ (wpkg_getOr _ dp Language.go hg)
    · injection hp' with hpe
      subst hpe
      exact wpkg_bumpSrc _ _ _ (wpkg_getOr _ dp Language.go hg)
    · exact hg p hp'
  · intro p hp'
    rw [u3] at hp'
    rw [u5, u6]
    exact hp p hp'
  · intro p hp'
    rw [u4] at hp'
    rw [u5, u6]
    exact hr p hp'

theorem pyStep_inv (dp : dirPackages) (f : FileEntry) (h : dpInv dp) :
    dpInv (pyStep dp f) := by
  obtain ⟨hg, hp, hr⟩ := h
  obtain ⟨u1, u2, u3, u4, u5, u6⟩ := pyStep_untouched dp f
  refine ⟨?_, ?_, ?_⟩
  · intro p hp'
    rw [u3] at hp'
    rw [u5, u6]
    exact hg p hp'
  · intro p hp'
    rw [u5, u6]
    unfold pyStep at hp'
    split_ifs at hp' with hpy hts
    · injection hp' with hpe
      subst hpe
      exact wpkg_bumpTest _ _ _ (wpkg_getOr _ dp Language.python hp)
    · injection hp' with hpe
      subst hpe
      exact wpkg_bumpSrc _ _ _ (wpkg_getOr _ dp Language.python hp)
    · exact hp p hp'
  · intro p hp'
    rw [u4] at hp'
    rw [u5, u6]
    exact hr p hp'

theorem rsStep_inv (dp : dirPackages) (f : FileEntry) (h : dpInv dp) :
    dpInv (rsStep dp f) := by
  obtain ⟨hg, hp, hr⟩ := h
  obtain ⟨u1, u2, u3, u4, u5, u6⟩ := rsStep_untouched dp f
  refine ⟨?_, ?_, ?_⟩
  · intro p hp'
    rw [u3] at hp'
    rw [u5, u6]
    exact hg p hp'
  · intro p hp'
    rw [u4] at hp'
    rw [u5, u6]
    exact hp p hp'
  · intro p hp'
    rw [u5, u6]
    unfold rsStep at hp'
    split_ifs at hp' with hrs
    · injection hp' with hpe
      subst hpe
      have hbase : wpkg dp.relPath dp.relSegs (getOr dp.rustPkg dp Language.rust) ∧
          (getOr dp.rustPkg dp Language.rust).HasTestFiles = false ∧
          (getOr dp.rustPkg dp Language.rust).TestFileCount = 0 := by
        cases hcase : dp.rustPkg with
        | some q => exact hr q hcase
        | none => exact ⟨mkPkg_wpkg dp Language.rust, rfl, rfl⟩
      exact ⟨wpkg_bumpSrc _ _ _ hbase.1, hbase.2.1, hbase.2.2⟩
    · exact hr p hp'

theorem fileDp_inv (dp : dirPackages) (f : FileEntry) (h : dpInv dp) :
    dpInv (fileDp dp f) :=
  rsStep_inv _ _ (pyStep_inv _ _ (goStep_inv _ _ (buildStep_inv _ _ h)))

theorem dp0_inv (rel : List String) : dpInv (dp0 rel) := by
  refine ⟨?_, ?_, ?_⟩ <;> intro p h <;> exact nomatch h

theorem foldDp_inv (files : List FileEntry) (dp : dirPackages) (h : dpInv dp) :
    dpInv (files.foldl fileDp dp) := by
  induction files generalizing dp with
  | nil => exact h
  | cons f fs ih => exact ih _ (fileDp_inv dp f h)

theorem foldDp_hasBuild (files : List FileEntry) (dp : dirPackages) :
    (files.foldl fileDp dp).hasBuild
      = (dp.hasBuild || files.any fun f => isManifestName f.name) := by
  induction files generalizing dp with
  | nil => simp
  | cons f fs ih => rw [List.foldl_cons, ih, fileDp_hasBuild, List.any_cons, Bool.or_assoc]

theorem foldDp_targets_unread (files : List FileEntry) (dp : dirPackages)
    (h : ∀ f ∈ files, isManifestName f.name = true → f.content = none) :
    (files.foldl fileDp dp).targets = dp.targets := by
  induction files generalizing dp with
  | nil => rfl
  | cons f fs ih =>
    rw [List.foldl_cons, ih _ (fun g hg => h g (List.mem_cons_of_mem f hg)),
      fileDp_targets_unread dp f (h f (List.mem_cons_self f fs))]

theorem foldDp_relPath (files : List FileEntry) (dp : dirPackages) :
    (files.foldl fileDp dp).relPath = dp.relPath := by
  induction files generalizing dp with
  | nil => rfl
  | cons f fs ih => rw [List.foldl_cons, ih, fileDp_relPath]

theorem foldDp_relSegs (files : List FileEntry) (dp : dirPackages) :
    (files.foldl fileDp dp).relSegs = dp.relSegs := by
  induction files generalizing dp with
  | nil => rfl
  | cons f fs ih => rw [List.foldl_cons, ih, fileDp_relSegs]

theorem dirDp_inv (e : List String × List FileEntry) : dpInv (dirDp e) :=
  foldDp_inv e.2 (dp0 e.1) (dp0_inv e.1)

theorem dirDp_relPath (e : List String × List FileEntry) :
    (dirDp e).relPath = relPathString e.1 :=
  foldDp_relPath e.2 (dp0 e.1)

theorem dirDp_relSegs (e : List String × List FileEntry) : (dirDp e).relSegs = e.1 :=
  foldDp_relSegs e.2 (dp0 e.1)

theorem dirDp_hasBuild (e : List String × List FileEntry) :
    (dirDp e).hasBuild = e.2.any fun f => isManifestName f.name := by
  unfold dirDp
  rw [foldDp_hasBuild]
  rfl

theorem dirDp_targets_unread (e : List String × List FileEntry)
    (h : ∀ f ∈ e.2, isManifestName f.name = true → f.content = none) :
    (dirDp e).targets = none :=
  foldDp_targets_unread e.2 (dp0 e.1) h

theorem goOut_props (dp : dirPackages) (pkg : Package) (hInv : dpInv dp)
    (h : pkg ∈ goOut dp) :
    pkg.RelPath = dp.relPath ∧ pkg.RelSegs = dp.relSegs ∧
    pkg.HasBuildFile = dp.hasBuild ∧
    (dp.targets = none →
      pkg.TestTargetCount = 0 ∧ pkg.LibraryTargets = 0 ∧ pkg.BinaryTargets = 0) := by
  unfold goOut at h
  cases hcase : dp.goPkg with
  | none =>
    rw [hcase] at h
    exact absurd h (List.not_mem_nil pkg)
  | some p =>
    rw [hcase] at h
    have hpe : pkg = goFinal dp p := List.mem_singleton.mp h
    subst hpe
    obtain ⟨w1, w2, w3, w4, w5, w6⟩ := hInv.1 p hcase
    unfold goFinal
    cases ht : dp.targets with
    | none => exact ⟨w1, w2, rfl, fun _ => ⟨w4, w5, w6⟩⟩
    | some t => exact ⟨w1, w2, rfl, fun hn => Option.noConfusion hn⟩

theorem pyOut_props (dp : dirPackages) (pkg : Package) (hInv : dpInv dp)
    (h : pkg ∈ pyOut dp) :
    pkg.RelPath = dp.relPath ∧ pkg.RelSegs = dp.relSegs ∧
    pkg.HasBuildFile = dp.hasBuild ∧
    (dp.targets = none →
      pkg.TestTargetCount = 0 ∧ pkg.LibraryTargets = 0 ∧ pkg.BinaryTargets = 0) := by
  unfold pyOut at h
  cases hcase : dp.pythonPkg with
  | none =>
    rw [hcase] at h
    exact absurd h (List.not_mem_nil pkg)
  | some p =>
    rw [hcase] at h
    have hpe : pkg = pyFinal dp p := List.mem_singleton.mp h
    subst hpe
    obtain ⟨w1, w2, w3, w4, w5, w6⟩ := hInv.2.1 p hcase
    unfold pyFinal
    cases ht : dp.targets with
    | none => exact ⟨w1, w2, rfl, fun _ => ⟨w4, w5, w6⟩⟩
    | some t => exact ⟨w1, w2, rfl, fun hn => Option.noConfusion hn⟩

theorem rustOut_props (dp : dirPackages) (pkg : Package) (hInv : dpInv dp)
    (h : pkg ∈ rustOut dp) :
    pkg.RelPath = dp.relPath ∧ pkg.RelSegs = dp.relSegs ∧
    pkg.HasBuildFile = dp.hasBuild ∧
    (dp.targets = none →
      pkg.TestTargetCount = 0 ∧ pkg.LibraryTargets = 0 ∧ pkg.BinaryTargets = 0) ∧
    pkg.TestFileCount = pkg.TestTargetCount ∧
    (pkg.HasTestFiles = true ↔ 0 < pkg.TestTargetCount) := by
  unfold rustOut at h
  cases hcase : dp.rustPkg with
  | none =>
    rw [hcase] at h
    exact absurd h (List.not_mem_nil pkg)
  | some p =>
    rw [hcase] at h
    have hpe : pkg = rustFinal dp p := List.mem_singleton.mp h
    subst hpe
    obtain ⟨⟨w1, w2, w3, w4, w5, w6⟩, e1, e2⟩ := hInv.2.2 p hcase
    unfold rustFinal
    cases ht : dp.targets with
    | none =>
      refine ⟨w1, w2, rfl, fun _ => ⟨w4, w5, w6⟩, ?_, ?_⟩
      · show p.TestFileCount = p.TestTargetCount
        rw [e2, w4]
      · show p.HasTestFiles = true ↔ 0 < p.TestTargetCount
        rw [e1, w4]
        simp
    | some t =>
      dsimp only
      split_ifs with hpos
      · refine ⟨w1, w2, rfl, fun hn => hn.elim, rfl, ?_⟩
        simpa using hpos
      · refine ⟨w1, w2, rfl, fun hn => hn.elim, ?_, ?_⟩
        · show p.TestFileCount = t.rustTests
          rw [e2]
          omega
        · show p.HasTestFiles = true ↔ 0 < t.rustTests
          rw [e1]
          constructor
          · intro hfalse
            exact absurd hfalse (by simp)
          · intro hlt
            omega

theorem finalizeGo_eq (r : ScanResult) (dp : dirPackages) :
    (finalizeGo r dp).GoPackages = r.GoPackages ++ goOut dp ∧
    (finalizeGo r dp).PythonPackages = r.PythonPackages ∧
    (finalizeGo r dp).RustPackages = r.RustPackages ∧
    (finalizeGo r dp).TotalRustTests = r.TotalRustTests := by
  unfold finalizeGo goOut
  cases dp.goPkg with
  | none => exact ⟨(List.append_nil _).symm, rfl, rfl, rfl⟩
  | some p => cases dp.targets <;> exact ⟨rfl, rfl, rfl, rfl⟩

theorem finalizePython_eq (r : ScanResult) (dp : dirPackages) :
    (finalizePython r dp).PythonPackages = r.PythonPackages ++ pyOut dp ∧
    (finalizePython r dp).GoPackages = r.GoPackages ∧
    (finalizePython r dp).RustPackages = r.RustPackages ∧
    (finalizePython r dp).TotalRustTests = r.TotalRustTests := by
  unfold finalizePython pyOut
  cases dp.pythonPkg with
  | none => exact ⟨(List.append_nil _).symm, rfl, rfl, rfl⟩
  | some p => cases dp.targets <;> exact ⟨rfl, rfl, rfl, rfl⟩

theorem finalizeRust_eq (r : ScanResult) (dp : dirPackages) :
    (finalizeRust r dp).RustPackages = r.RustPackages ++ rustOut dp ∧
    (finalizeRust r dp).GoPackages = r.GoPackages ∧
    (finalizeRust r dp).PythonPackages = r.PythonPackages ∧
    (finalizeRust r dp).TotalRustTests = r.TotalRustTests + rustAdd dp := by
  unfold finalizeRust rustOut rustAdd
  cases dp.rustPkg with
  | none => exact ⟨(List.append_nil _).symm, rfl, rfl, (Nat.add_zero _).symm⟩
  | some p =>
    cases dp.targets with
    | none => exact ⟨rfl, rfl, rfl, (Nat.add_zero _).symm⟩
    | some t =>
      dsimp only
      split_ifs with hpos
      · exact ⟨rfl, rfl, rfl, rfl⟩
      · exact ⟨rfl, rfl, rfl, (Nat.add_zero _).symm⟩

theorem finalizeDir_eq (r : ScanResult) (dp : dirPackages) :
    (finalizeDir r dp).GoPackages = r.GoPackages ++ goOut dp ∧
    (finalizeDir r dp).PythonPackages = r.PythonPackages ++ pyOut dp ∧
    (finalizeDir r dp).RustPackages = r.RustPackages ++ rustOut dp ∧
    (finalizeDir r dp).TotalRustTests = r.TotalRustTests + rustAdd dp := by
  unfold finalizeDir
  obtain ⟨g1, g2, g3, g4⟩ := finalizeGo_eq r dp
  obtain ⟨p1, p2, p3, p4⟩ := finalizePython_eq (finalizeGo r dp) dp
  obtain ⟨r1, r2, r3, r4⟩ := finalizeRust_eq (finalizePython (finalizeGo r dp) dp) dp
  refine ⟨?_, ?_, ?_, ?_⟩
  · rw [r2, p2, g1]
  · rw [r3, p1, g2]
  · rw [r1, p3, g3]
  · rw [r4, p4, g4]

theorem foldFinal_eq (dps : List dirPackages) (r : ScanResult) :
    (dps.foldl finalizeDir r).GoPackages = r.GoPackages ++ (dps.map goOut).flatten ∧
    (dps.foldl finalizeDir r).PythonPackages
      = r.PythonPackages ++ (dps.map pyOut).flatten ∧
    (dps.foldl finalizeDir r).RustPackages
      = r.RustPackages ++ (dps.map rustOut).flatten ∧
    (dps.foldl finalizeDir r).TotalRustTests
      = r.TotalRustTests + (dps.map rustAdd).sum := by
  induction dps generalizing r with
  | nil => simp
  | cons dp rest ih =>
    obtain ⟨f1, f2, f3, f4⟩ := finalizeDir_eq r dp
    obtain ⟨i1, i2, i3, i4⟩ := ih (finalizeDir r dp)
    rw [List.foldl_cons]
    refine ⟨?_, ?_, ?_, ?_⟩
    · rw [i1, f1]
      simp [List.append_assoc]
    · rw [i2, f2]
      simp [List.append_assoc]
    · rw [i3, f3]
      simp [List.append_assoc]
    · rw [i4, f4]
      simp
      omega

theorem fileTotals_carry (r : ScanResult) (f : FileEntry) :
    (fileTotals r f).GoPackages = r.GoPackages ∧
    (fileTotals r f).PythonPackages = r.PythonPackages ∧
    (fileTotals r f).RustPackages = r.RustPackages ∧
    (fileTotals r f).TotalRustTests = r.TotalRustTests := by
  unfold fileTotals
  split_ifs <;> exact ⟨rfl, rfl, rfl, rfl⟩

theorem foldTotals_carry (files : List FileEntry) (r : ScanResult) :
    (files.foldl fileTotals r).GoPackages = r.GoPackages ∧
    (files.foldl fileTotals r).PythonPackages = r.PythonPackages ∧
    (files.foldl fileTotals r).RustPackages = r.RustPackages ∧
    (files.foldl fileTotals r).TotalRustTests = r.TotalRustTests := by
  induction files generalizing r with
  | nil => exact ⟨rfl, rfl, rfl, rfl⟩
  | cons f fs ih =>
    obtain ⟨c1, c2, c3, c4⟩ := fileTotals_carry r f
    obtain ⟨i1, i2, i3, i4⟩ := ih (fileTotals r f)
    exact ⟨by rw [List.foldl_cons, i1, c1], by rw [List.foldl_cons, i2, c2],
      by rw [List.foldl_cons, i3, c3], by rw [List.foldl_cons, i4, c4]⟩

theorem dirsTotals_carry (dirs : List (List String × List FileEntry)) (r : ScanResult) :
    (dirs.foldl dirTotals r).GoPackages = r.GoPackages ∧
    (dirs.foldl dirTotals r).PythonPackages = r.PythonPackages ∧
    (dirs.foldl dirTotals r).RustPackages = r.RustPackages ∧
    (dirs.foldl dirTotals r).TotalRustTests = r.TotalRustTests := by
  induction dirs generalizing r with
  | nil => exact ⟨rfl, rfl, rfl, rfl⟩
  | cons e rest ih =>
    obtain ⟨c1, c2, c3, c4⟩ := foldTotals_carry e.2 r
    obtain ⟨i1, i2, i3, i4⟩ := ih (dirTotals r e)
    exact ⟨by rw [List.foldl_cons, i1]; exact c1, by rw [List.foldl_cons, i2]; exact c2,
      by rw [List.foldl_cons, i3]; exact c3, by rw [List.foldl_cons, i4]; exact c4⟩

theorem preSort_def (root : FSDir) :
    preSort root = ((scanDirsOf root).map dirDp).foldl finalizeDir
      ((scanDirsOf root).foldl dirTotals emptyResult) := rfl

theorem preSort_eq (root : FSDir) :
    (preSort root).GoPackages = (((scanDirsOf root).map dirDp).map goOut).flatten ∧
    (preSort root).PythonPackages = (((scanDirsOf root).map dirDp).map pyOut).flatten ∧
    (preSort root).RustPackages = (((scanDirsOf root).map dirDp).map rustOut).flatten ∧
    (preSort root).TotalRustTests = (((scanDirsOf root).map dirDp).map rustAdd).sum := by
  obtain ⟨f1, f2, f3, f4⟩ := foldFinal_eq ((scanDirsOf root).map dirDp)
    ((scanDirsOf root).foldl dirTotals emptyResult)
  obtain ⟨c1, c2, c3, c4⟩ := dirsTotals_carry (scanDirsOf root) emptyResult
  rw [preSort_def]
  refine ⟨?_, ?_, ?_, ?_⟩
  · rw [f1, c1]
    rfl
  · rw [f2, c2]
    rfl
  · rw [f3, c3]
    rfl
  · rw [f4, c4]
    simp [emptyResult]

theorem pkgInsert_perm (p : Package) (l : List Package) :
    (pkgInsert p l).Perm (p :: l) := by
  induction l with
  | nil => exact List.Perm.refl _
  | cons q qs ih =>
    unfold pkgInsert
    split
    · exact List.Perm.refl _
    · exact (ih.cons q).trans (List.Perm.swap p q qs)

theorem pkgSort_perm (l : List Package) : (pkgSort l).Perm l := by
  suffices h : ∀ (l acc : List Package),
      (l.foldl (fun acc p => pkgInsert p acc) acc).Perm (acc ++ l) by
    simpa using h l []
  intro l
  induction l with
  | nil => intro acc; simp
  | cons p ps ih =>
    intro acc
    rw [List.foldl_cons]
    exact ((ih _).trans (((pkgInsert_perm p acc).append_right ps).trans
      List.perm_middle.symm))

theorem scan_perm (root : FSDir) :
    ((Scan root).GoPackages).Perm ((preSort root).GoPackages) ∧
    ((Scan root).PythonPackages).Perm ((preSort root).PythonPackages) ∧
    ((Scan root).RustPackages).Perm ((preSort root).RustPackages) ∧
    (Scan root).TotalRustTests = (preSort root).TotalRustTests :=
  ⟨pkgSort_perm _, pkgSort_perm _, pkgSort_perm _, rfl⟩

theorem mem_scan_cases (root : FSDir) (pkg : Package)
    (h : pkg ∈ (Scan root).GoPackages ∨ pkg ∈ (Scan root).PythonPackages ∨
      pkg ∈ (Scan root).RustPackages) :
    ∃ e ∈ scanDirsOf root,
      pkg ∈ goOut (dirDp e) ∨ pkg ∈ pyOut (dirDp e) ∨ pkg ∈ rustOut (dirDp e) := by
  obtain ⟨s1, s2, s3, -⟩ := scan_perm root
  obtain ⟨p1, p2, p3, -⟩ := preSort_eq root
  rcases h with h | h | h
  · have hm := s1.mem_iff.mp h
    rw [p1] at hm
    obtain ⟨l, hl, hpkg⟩ := List.mem_flatten.mp hm
    obtain ⟨dp, hdp, rfl⟩ := List.mem_map.mp hl
    obtain ⟨e, he, rfl⟩ := List.mem_map.mp hdp
    exact ⟨e, he, Or.inl hpkg⟩
  · have hm := s2.mem_iff.mp h
    rw [p2] at hm
    obtain ⟨l, hl, hpkg⟩ := List.mem_flatten.mp hm
    obtain ⟨dp, hdp, rfl⟩ := List.mem_map.mp hl
    obtain ⟨e, he, rfl⟩ := List.mem_map.mp hdp
    exact ⟨e, he, Or.inr (Or.inl hpkg)⟩
  · have hm := s3.mem_iff.mp h
    rw [p3] at hm
    obtain ⟨l, hl, hpkg⟩ := List.mem_flatten.mp hm
    obtain ⟨dp, hdp, rfl⟩ := List.mem_map.mp hl
    obtain ⟨e, he, rfl⟩ := List.mem_map.mp hdp
    exact ⟨e, he, Or.inr (Or.inr hpkg)⟩

/-- C2: for every package produced by a scan, the has-build-file flag is
true exactly when the package's directory directly contains a file named
`BUILD` or `BUILD.bazel`; and when every manifest in that directory is
unreadable (parse failure), the package's test-, library- and binary-target
counts are all zero while the flag still reflects mere presence. -/
theorem c2_hasbuild_iff_manifest (root : FSDir) (pkg : Package)
    (h : pkg ∈ (Scan root).GoPackages ∨ pkg ∈ (Scan root).PythonPackages ∨
      pkg ∈ (Scan root).RustPackages) :
    ∃ e ∈ scanDirsOf root,
      pkg.RelPath = relPathString e.1 ∧
      pkg.HasBuildFile = e.2.any (fun f => isManifestName f.name) ∧
      ((∀ f ∈ e.2, isManifestName f.name = true → f.content = none) →
        pkg.TestTargetCount = 0 ∧ pkg.LibraryTargets = 0 ∧ pkg.BinaryTargets = 0) := by
  obtain ⟨e, he, hcase⟩ := mem_scan_cases root pkg h
  have hInv := dirDp_inv e
  refine ⟨e, he, ?_⟩
  rcases hcase with hc | hc | hc
  · obtain ⟨w1, w2, w3, w4⟩ := goOut_props _ _ hInv hc
    refine ⟨?_, ?_, ?_⟩
    · rw [w1, dirDp_relPath]
    · rw [w3, dirDp_hasBuild]
    · intro hun
      exact w4 (dirDp_targets_unread e hun)
  · obtain ⟨w1, w2, w3, w4⟩ := pyOut_props _ _ hInv hc
    refine ⟨?_, ?_, ?_⟩
    · rw [w1, dirDp_relPath]
    · rw [w3, dirDp_hasBuild]
    · intro hun
      exact w4 (dirDp_targets_unread e hun)
  · obtain ⟨w1, w2, w3, w4, -, -⟩ := rustOut_props _ _ hInv hc
    refine ⟨?_, ?_, ?_⟩
    · rw [w1, dirDp_relPath]
    · rw [w3, dirDp_hasBuild]
    · intro hun
      exact w4 (dirDp_targets_unread e hun)

/-- C2 witness: the scan of a repository with an unreadable root manifest
and one Go file produces the concrete package `c2pkg`, whose has-build-file
flag matches the manifest's presence while all target counts are zero. -/
theorem c2_witness :
    ∃ e ∈ scanDirsOf c2tree,
      c2pkg.RelPath = relPathString e.1 ∧
      c2pkg.HasBuildFile = e.2.any (fun f => isManifestName f.name) ∧
      ((∀ f ∈ e.2, isManifestName f.name = true → f.content = none) →
        c2pkg.TestTargetCount = 0 ∧ c2pkg.LibraryTargets = 0 ∧ c2pkg.BinaryTargets = 0) :=
  c2_hasbuild_iff_manifest c2tree c2pkg (Or.inl (by decide))

theorem rustOut_sum (dp : dirPackages) (hInv : dpInv dp) :
    ((rustOut dp).map fun p => p.TestFileCount).sum = rustAdd dp := by
  unfold rustOut rustAdd
  cases hcase : dp.rustPkg with
  | none => rfl
  | some p =>
    obtain ⟨-, -, e2⟩ := hInv.2.2 p hcase
    unfold rustFinal
    cases ht : dp.targets with
    | none => simp [e2]
    | some t =>
      dsimp only
      split_ifs with hpos <;> simp [e2]

theorem rust_sum_dps (dps : List dirPackages) (hinv : ∀ dp ∈ dps, dpInv dp) :
    (((dps.map rustOut).flatten).map fun p => p.TestFileCount).sum
      = (dps.map rustAdd).sum := by
  induction dps with
  | nil => rfl
  | cons dp rest ih =>
    simp only [List.map_cons, List.flatten_cons, List.map_append, List.sum_append,
      List.sum_cons]
    rw [rustOut_sum dp (hinv dp (List.mem_cons_self dp rest)),
      ih (fun x hx => hinv x (List.mem_cons_of_mem dp hx))]

/-- C5: after a scan, every Rust package's test-file count equals its
test-target count, its has-test-files flag is set exactly when that count
is positive (Rust source files never set it during the walk), and the
global Rust test-file total is the sum of these retroactively assigned
counts. -/
theorem c5_rust_testfiles (root : FSDir) :
    (∀ pkg ∈ (Scan root).RustPackages,
      pkg.TestFileCount = pkg.TestTargetCount ∧
      (pkg.HasTestFiles = true ↔ 0 < pkg.TestTargetCount)) ∧
    (Scan root).TotalRustTests
      = (((Scan root).RustPackages).map fun p => p.TestFileCount).sum := by
  obtain ⟨-, -, s3, s4⟩ := scan_perm root
  obtain ⟨-, -, p3, p4⟩ := preSort_eq root
  constructor
  · intro pkg h
    have hm := s3.mem_iff.mp h
    rw [p3] at hm
    obtain ⟨l, hl, hpkg⟩ := List.mem_flatten.mp hm
    obtain ⟨dp, hdp, rfl⟩ := List.mem_map.mp hl
    obtain ⟨e, he, rfl⟩ := List.mem_map.mp hdp
    have hp := rustOut_props _ _ (dirDp_inv e) hpkg
    exact ⟨hp.2.2.2.2.1, hp.2.2.2.2.2⟩
  · rw [s4, p4, (s3.map fun p => p.TestFileCount).sum_eq, p3]
    rw [rust_sum_dps]
    intro dp hdp
    obtain ⟨e, -, rfl⟩ := List.mem_map.mp hdp
    exact dirDp_inv e

/-- C5 witness: scanning a repository whose manifest declares two
`rust_test` targets yields the concrete Rust package `c5pkg`, with
test-file count equal to its test-target count and the has-test-files flag
set. -/
theorem c5_witness :
    c5pkg.TestFileCount = c5pkg.TestTargetCount ∧
    (c5pkg.HasTestFiles = true ↔ 0 < c5pkg.TestTargetCount) :=
  (c5_rust_testfiles c5tree).1 c5pkg (by decide)

theorem excludedDir_false_iff (s : String) : excludedDir s = false ↔ goodSeg s := by
  unfold excludedDir goodSeg
  constructor
  · intro h
    simp only [Bool.or_eq_false_iff] at h
    exact ⟨h.1.1, h.1.2, h.2⟩
  · intro h
    obtain ⟨h1, h2, h3⟩ := h
    simp [h1, h3]
    simpa using h2

mutual

theorem walkDirs_segs (rel : List String) (d : FSDir) (hrel : ∀ s ∈ rel, goodSeg s) :
    ∀ e ∈ walkDirs rel d, ∀ s ∈ e.1, goodSeg s := by
  cases d with
  | node n files subs =>
    intro e he
    simp only [walkDirs] at he
    rcases List.mem_cons.mp he with rfl | he2
    · exact hrel
    · exact walkForest_segs rel subs hrel e he2

theorem walkForest_segs (rel : List String) (fr : FSForest)
    (hrel : ∀ s ∈ rel, goodSeg s) :
    ∀ e ∈ walkForest rel fr, ∀ s ∈ e.1, goodSeg s := by
  cases fr with
  | nil =>
    intro e he
    simp only [walkForest] at he
    exact absurd he (List.not_mem_nil e)
  | cons d ds =>
    intro e he
    simp only [walkForest] at he
    rcases List.mem_append.mp he with h1 | h2
    · by_cases hex : excludedDir (FSDir.name d) = true
      · rw [if_pos hex] at h1
        exact absurd h1 (List.not_mem_nil e)
      · rw [if_neg hex] at h1
        refine walkDirs_segs (rel ++ [FSDir.name d]) d ?_ e h1
        intro s hs
        rcases List.mem_append.mp hs with hs2 | hs2
        · exact hrel s hs2
        · rw [List.mem_singleton] at hs2
          subst hs2
          rw [Bool.not_eq_true] at hex
          exact (excludedDir_false_iff _).mp hex
    · exact walkForest_segs rel ds hrel e h2

end

theorem scanDirsOf_segs (root : FSDir) :
    ∀ e ∈ scanDirsOf root, ∀ s ∈ e.1, goodSeg s := by
  unfold scanDirsOf
  split_ifs
  · intro e he
    exact absurd he (List.not_mem_nil e)
  · exact walkDirs_segs [] root (fun s hs => absurd hs (List.not_mem_nil s))

theorem scan_drop_excluded (n : String) (fs : List FileEntry) (d : FSDir)
    (rest : FSForest) (hex : excludedDir (FSDir.name d) = true) :
    Scan (FSDir.node n fs (FSForest.cons d rest)) = Scan (FSDir.node n fs rest) := by
  have hw : walkDirs [] (FSDir.node n fs (FSForest.cons d rest))
      = walkDirs [] (FSDir.node n fs rest) := by
    simp only [walkDirs, walkForest, if_pos hex, List.nil_append]
  have hs : scanDirsOf (FSDir.node n fs (FSForest.cons d rest))
      = scanDirsOf (FSDir.node n fs rest) := by
    unfold scanDirsOf
    rw [show FSDir.name (FSDir.node n fs (FSForest.cons d rest)) = n from rfl,
      show FSDir.name (FSDir.node n fs rest) = n from rfl]
    split_ifs
    · rfl
    · exact hw
  unfold Scan preSort
  rw [hs]

/-- C7 (amended): every scanned package's relative path is either the root
sentinel "." (with no segments) or the "/"-join of its segments, none of
which starts with ".", matches the exclusion denylist, or starts with
"bazel-"; and an excluded directory's entire subtree contributes nothing to
the scan result. -/
theorem c7_exclusion_invariant (root : FSDir) (pkg : Package)
    (h : pkg ∈ (Scan root).GoPackages ∨ pkg ∈ (Scan root).PythonPackages ∨
      pkg ∈ (Scan root).RustPackages) :
    ((pkg.RelSegs = [] ∧ pkg.RelPath = ".") ∨
      (pkg.RelSegs ≠ [] ∧ pkg.RelPath = relPathString pkg.RelSegs ∧
        ∀ seg ∈ pkg.RelSegs, goodSeg seg)) ∧
    (∀ (n : String) (fs : List FileEntry) (d : FSDir) (rest : FSForest),
      excludedDir (FSDir.name d) = true →
      Scan (FSDir.node n fs (FSForest.cons d rest)) = Scan (FSDir.node n fs rest)) := by
  constructor
  · obtain ⟨e, he, hcase⟩ := mem_scan_cases root pkg h
    have hInv := dirDp_inv e
    have hsegs := scanDirsOf_segs root e he
    have hrel : pkg.RelPath = (dirDp e).relPath ∧ pkg.RelSegs = (dirDp e).relSegs := by
      rcases hcase with hc | hc | hc
      · have hp := goOut_props _ _ hInv hc
        exact ⟨hp.1, hp.2.1⟩
      · have hp := pyOut_props _ _ hInv hc
        exact ⟨hp.1, hp.2.1⟩
      · have hp := rustOut_props _ _ hInv hc
        exact ⟨hp.1, hp.2.1⟩
    rw [hrel.1, hrel.2, dirDp_relPath, dirDp_relSegs]
    cases hse : e.1 with
    | nil => exact Or.inl ⟨rfl, rfl⟩
    | cons a as =>
      rw [hse] at hsegs
      refine Or.inr ⟨by simp, rfl, ?_⟩
      intro seg hseg
      exact hsegs seg hseg
  · exact fun n fs d rest hex => scan_drop_excluded n fs d rest hex

/-- C7 witness: the package of a Go file under subdirectory "sub" carries
the segment list ["sub"], which survives the exclusion rule; and attaching
a ".git" subdirectory to a root leaves the scan result unchanged. -/
theorem c7_witness :
    ((c7wpkg.RelSegs = [] ∧ c7wpkg.RelPath = ".") ∨
      (c7wpkg.RelSegs ≠ [] ∧ c7wpkg.RelPath = relPathString c7wpkg.RelSegs ∧
        ∀ seg ∈ c7wpkg.RelSegs, goodSeg seg)) ∧
    Scan (FSDir.node "x" [] (FSForest.cons (FSDir.node ".git" [] FSForest.nil)
        FSForest.nil))
      = Scan (FSDir.node "x" [] FSForest.nil) := by
  have h := c7_exclusion_invariant c7wtree c7wpkg (Or.inl (by decide))
  exact ⟨h.1, h.2 "x" [] (FSDir.node ".git" [] FSForest.nil) FSForest.nil (by decide)⟩

/-- C7 counterexample: the claim as stated fails at the repository root — a
package created by a root-level Go file has relative path ".", whose single
path segment starts with ".". -/
theorem c7_counterexample :
    ∃ pkg ∈ (Scan c7ctree).GoPackages, ∃ seg ∈ splitSlash pkg.RelPath,
      strStartsWith seg "." = true := by decide

/-- C10: the global build-file total counts manifest files, not
directories.  A directory containing both a `BUILD` and a `BUILD.bazel`
file contributes 2 to the report's `totalBuildFiles`, while its package
still reports a single `hasBuildFile = true`. -/
theorem c10_build_total_counts_files :
    (Calculate (Scan c10tree)).Summary.TotalBuildFiles = 2 ∧
    (Scan c10tree).TotalBUILDs = 2 ∧
    (Calculate (Scan c10tree)).GoPackages =
      [{ Path := ".", Language := "go", HasBuildFile := true, HasTestFiles := false,
         TestFileCount := 0, TestTargetCount := 0, SourceFileCount := 1 }] := by
  exact ⟨by decide, by decide, by decide⟩

end BM
